import Mathlib

/-!
# SMOG main window: the shell around the cloud registry

A shallow embedding of `SmogMainWindow.cpp`.  The window is presentation glue
around collaborators that live in other translation units (`CloudStore`,
`CloudModel`, `AdaptiveCloudEntry`, `CacheDatabase`, `math::isPolygonSimple`,
the Qt widgets).  The shell functions are translated statement by statement;
every call they make to a collaborator is appended to a call log kept in the
state, so that ordering properties of the calls can be stated.  C++ exceptions
are modelled by an optional error returned next to the state reached when the
exception left the function.
-/

namespace Smog

/-! ## Data model -/

/-- A point is opaque to the shell: only its identity matters here. -/
abbrev Point := Nat

/-- An ordered, indexable collection of points. -/
abbrev PointSequence := List Point

/-- The knife polygon `math::Polygonf`: an ordered sequence of 2D vertices.  The
shell only asks for its size and hands it on. -/
abbrev Polygon := List (Int × Int)

/-- A camera pose, opaque to the shell. -/
abbrev Pose := Nat

/-- The two kinds of entries: `dynamic_cast<AdaptiveCloudEntry*>` succeeds exactly
on `Adaptive`. -/
inductive Variant where
  | Static
  | Adaptive
  deriving DecidableEq, Repr

/-- One loaded dataset (`CloudEntry`, `AdaptiveCloudEntry`). -/
structure CloudEntry where
  name : String
  filepath : String
  visible : Bool
  variant : Variant
  points : PointSequence
  lod : PointSequence
  lastPose : Pose
  deriving DecidableEq, Repr

/-- The failures the spec names for the registry (§7). -/
inductive ShellError where
  | LoadError (path : String)
  | IndexError (index : Nat)
  deriving DecidableEq, Repr

/-- A call made to a collaborator, in the order it happens. -/
inductive Call where
  | openDB
  | prepareDB
  | cacheGet (fp : Nat)
  | cachePut (fp : Nat)
  | readFile (path : String)
  | writeFile (path : String) (pts : PointSequence)
  | addCloud (name path : String) (useAdaptive : Bool)
  | getNumberOfClouds
  | getCloud (index : Nat)
  | removeCloud (index : Nat) (released : Option CloudEntry)
  | setVisible (index : Nat) (v : Bool)
  | visualize (e : CloudEntry)
  | rendererUpdate
  | updateVisualization (index : Nat) (e : CloudEntry)
  | filterVisibleCloudsTo (polygon : Polygon) (path : String)
  | changePointSize (name : String) (diff : Int)
  | setBackgroundColor (color : Nat)
  | settingsSet (key value : String)
  | mkTmpDir
  deriving DecidableEq, Repr

/-- What the shell takes from code outside `SmogMainWindow.cpp`: geometry
utilities, format readers, `QFileInfo`, constants of `CloudModel`, and the
policies the spec leaves to the implementer. -/
structure Env where
  /-- The check `math::isPolygonSimple`. -/
  isPolygonSimple : Polygon → Bool
  /-- The point-in-polygon test used by the filter. -/
  pointInPolygon : Polygon → Point → Bool
  /-- The format reader: `none` is a file it cannot parse. -/
  reader : String → Option PointSequence
  /-- The content fingerprint of a file. -/
  fingerprint : String → Nat
  /-- The level-of-detail policy: the subset shown for a camera pose. -/
  thin : Pose → PointSequence → PointSequence
  /-- Qt: `QFileInfo::baseName`. -/
  baseName : String → String
  /-- Qt: `QFileInfo::absoluteFilePath`. -/
  absoluteFilePath : String → String
  /-- Qt: `QFileInfo::dir().absolutePath()`. -/
  absolutePath : String → String
  /-- Visibility of a freshly created entry. -/
  defaultVisible : Bool
  /-- The constant `CloudModel::COLUMN_VISIBILITY`. -/
  COLUMN_VISIBILITY : Nat
  /-- Qt: what `QDir("tmp").exists()` answers in the constructor. -/
  tmpDirExists : Bool

/-- The state the shell acts on: the `CloudStore` singleton, the static flag
`AdaptiveCloudEntry::UseCache`, the `CacheDatabase` singleton, the widgets the
shell reads, the persisted settings and the call log. -/
structure Shell where
  /-- The registry `CloudStore::getInstance()`. -/
  store : List CloudEntry
  /-- The process-wide flag `AdaptiveCloudEntry::UseCache`. -/
  UseCache : Bool
  /-- The records of `CacheDatabase::getInstance()`. -/
  cache : List (Nat × PointSequence)
  /-- The value of `ui->actionUse_cache->isChecked()`. -/
  actionUse_cache : Bool
  /-- The value of `ui->actionLock_adaptive_view->isChecked()`. -/
  actionLock_adaptive_view : Bool
  /-- The value of `ui->actionUse_adaptive_clouds->isChecked()`. -/
  actionUse_adaptive_clouds : Bool
  /-- The value of `ui->Map->getKnifePolygon()`. -/
  knifePolygon : Polygon
  /-- The camera of `ui->CloudVisualizer`. -/
  camera : Pose
  /-- The setting `main/lastdir`. -/
  lastdir : Option String
  /-- Calls made so far, oldest first. -/
  log : List Call
  deriving DecidableEq, Repr

/-- The state a shell function leaves behind, and the exception that left it, if any. -/
abbrev Run := Shell × Option ShellError

/-- Append one call to the log. -/
def Shell.record (s : Shell) (c : Call) : Shell :=
  { s with log := s.log ++ [c] }

/-- The calls made between state `s` and a later state `t`. -/
def since (s t : Shell) : List Call :=
  t.log.drop s.log.length

/-! ## Machine integers -/

/-- Width of `size_t`. -/
def SIZE_BITS : Nat := 64

/-- Conversion of an `int` to `size_t`. -/
def toSizeT (i : Int) : Nat :=
  (i % (2 ^ SIZE_BITS : Int)).toNat

/-- Subtraction in `size_t`. -/
def subSizeT (a b : Nat) : Nat :=
  (a + 2 ^ SIZE_BITS - b % 2 ^ SIZE_BITS) % 2 ^ SIZE_BITS

/-! ## Collaborators -/

/-- Modelled from the spec: `CloudStore::getNumberOfClouds` (§4.1), the number of
entries of the registry. -/
def getNumberOfClouds (s : Shell) : Shell × Nat :=
  (s.record Call.getNumberOfClouds, s.store.length)

/-- Modelled from the spec: `CloudStore::getCloud` (§4.1), which fails with
`IndexError` if the index is out of bounds. -/
def getCloud (s : Shell) (index : Nat) : Shell × Except ShellError CloudEntry :=
  (s.record (Call.getCloud index),
    match s.store[index]? with
    | some e => Except.ok e
    | none => Except.error (ShellError.IndexError index))

/-- Modelled from the spec: `CloudEntry::setVisible` on the entry the reference
returned by `getCloud index` designates (§4.2). -/
def setVisible (s : Shell) (index : Nat) (v : Bool) : Shell :=
  match s.store[index]? with
  | some e =>
    { s with store := s.store.set index { e with visible := v },
             log := s.log ++ [Call.setVisible index v] }
  | none => s.record (Call.setVisible index v)

/-- Modelled from the spec: `CloudModel::removeCloud` (§4.1), which removes and
releases the entry at the index; later entries shift down by one (§3). -/
def removeCloud (s : Shell) (index : Nat) : Shell :=
  { s with store := s.store.eraseIdx index,
           log := s.log ++ [Call.removeCloud index s.store[index]?] }

/-- Modelled from the spec: `CacheDatabase::put` (§4.4), overwrite by key. -/
def cachePut (cache : List (Nat × PointSequence)) (fp : Nat) (pts : PointSequence) :
    List (Nat × PointSequence) :=
  (fp, pts) :: cache.filter (fun r => r.1 != fp)

/-- Modelled from the spec: the load algorithm of an entry (§4.3, steps 1 and 2).
An adaptive entry consults the cache when `AdaptiveCloudEntry::UseCache` is set at
load time; a hit skips the format reader, a miss reads the file and writes the
result back.  A static entry reads the file. -/
def loadPoints (env : Env) (s : Shell) (path : String) (useAdaptive : Bool) :
    Shell × Option PointSequence :=
  if useAdaptive && s.UseCache then
    let s1 := s.record (Call.cacheGet (env.fingerprint path))
    match s.cache.lookup (env.fingerprint path) with
    | some pts => (s1, some pts)
    | none =>
      match env.reader path with
      | none => (s1.record (Call.readFile path), none)
      | some pts =>
        ({ s1 with cache := cachePut s1.cache (env.fingerprint path) pts,
                   log := s1.log ++ [Call.readFile path, Call.cachePut (env.fingerprint path)] },
          some pts)
  else
    (s.record (Call.readFile path), env.reader path)

/-- Modelled from the spec: `CloudModel::addCloud` (§4.1): constructs a Static or
Adaptive entry per `useAdaptive`, triggers its load and appends it; fails with
`LoadError` if the reader cannot parse the file, and then no entry is added. -/
def addCloud (env : Env) (s : Shell) (name path : String) (useAdaptive : Bool) : Run :=
  match loadPoints env (s.record (Call.addCloud name path useAdaptive)) path useAdaptive with
  | (s1, none) => (s1, some (ShellError.LoadError path))
  | (s1, some pts) =>
    ({ s1 with store := s1.store ++ [{
          name := name
          filepath := path
          visible := env.defaultVisible
          variant := if useAdaptive then Variant.Adaptive else Variant.Static
          points := pts
          lod := if useAdaptive then env.thin s1.camera pts else pts
          lastPose := s1.camera }] }, none)

/-- Modelled from the spec: `AdaptiveCloudEntry::updateVisualization` (§4.3):
replaces the current LOD sequence by the one derived from the camera pose and
updates the last-used pose. -/
def updateVisualization (env : Env) (pose : Pose) (e : CloudEntry) : CloudEntry :=
  { e with lod := env.thin pose e.points, lastPose := pose }

/-- Modelled from the spec: the output of the filter (§4.1): the points of the
visible entries inside the polygon, in registry order, then point order. -/
def pointsInside (env : Env) (store : List CloudEntry) (polygon : Polygon) : PointSequence :=
  ((store.filter (fun e => e.visible)).map
    (fun e => e.points.filter (env.pointInPolygon polygon))).flatten

/-- Modelled from the spec: `CloudStore::filterVisibleCloudsTo` (§4.1): writes the
points of the visible entries inside the polygon to `outPath`; nothing is written
for a polygon of fewer than 3 vertices or one that is not simple. -/
def filterVisibleCloudsTo (env : Env) (s : Shell) (polygon : Polygon) (outPath : String) :
    Shell :=
  let s1 := s.record (Call.filterVisibleCloudsTo polygon outPath)
  if polygon.length < 3 || !env.isPolygonSimple polygon then s1
  else s1.record (Call.writeFile outPath (pointsInside env s.store polygon))

/-! ## The shell: `SmogMainWindow.cpp` -/

/-- The constructor (lines 29-75): opens and prepares the cache database, creates
the `tmp` folder if it does not exist (lines 59-61) and takes the default of `UseCache`
from the action. -/
def SmogMainWindow (env : Env) (s : Shell) : Shell :=
  let s1 := s.record Call.openDB
  let s2 := s1.record Call.prepareDB
  let s3 := if !env.tmpDirExists then s2.record Call.mkTmpDir else s2
  { s3 with UseCache := s3.actionUse_cache }

/-- Lines 144-150: hand the entry to the renderer and refresh it. -/
def updateOnVisibility (s : Shell) (cloudEntry : CloudEntry) : Shell :=
  (s.record (Call.visualize cloudEntry)).record Call.rendererUpdate

/-- Lines 195-217. -/
def loadCloudFromFile (env : Env) (s : Shell) (filepath : Option String) : Run :=
  match filepath with
  | none => (s, none)
  | some p =>
    match addCloud env s (env.baseName p) (env.absoluteFilePath p)
        s.actionUse_adaptive_clouds with
    | (s1, some err) => (s1, some err)
    | (s1, none) =>
      let (s2, n) := getNumberOfClouds s1
      match getCloud s2 (subSizeT n 1) with
      | (s3, Except.error err) => (s3, some err)
      | (s3, Except.ok cloud) =>
        let s4 := updateOnVisibility s3 cloud
        ({ s4 with lastdir := some (env.absolutePath p),
                   log := s4.log ++ [Call.settingsSet "main/lastdir" (env.absolutePath p)] },
          none)

/-- Lines 89-99: the file dialog returns a path or a null string. -/
def on_actionLoad_Cloud_triggered (env : Env) (s : Shell) (dialog : Option String) : Run :=
  loadCloudFromFile env s dialog

/-- Lines 152-164.  The point size lives in the renderer; the read, the addition
and the write are recorded as one call. -/
def changeCloudPointSize (s : Shell) (cloud : CloudEntry) (pointSizeDiff : Int) : Shell :=
  (s.record (Call.changePointSize cloud.name pointSizeDiff)).record Call.rendererUpdate

/-- Lines 166-174: the loop over the selected rows. -/
def changeSelectedCloudsPointSize (s : Shell) (pointSizeDiff : Int) : List Int → Run
  | [] => (s, none)
  | row :: rest =>
    match getCloud s (toSizeT row) with
    | (s1, Except.error err) => (s1, some err)
    | (s1, Except.ok cloud) =>
      changeSelectedCloudsPointSize (changeCloudPointSize s1 cloud pointSizeDiff)
        pointSizeDiff rest

/-- Lines 101-105. -/
def on_actionIncrease_point_size_triggered (s : Shell) (selectedRows : List Int) : Run :=
  changeSelectedCloudsPointSize s 1 selectedRows

/-- Lines 107-111. -/
def on_actionDecrease_point_size_triggered (s : Shell) (selectedRows : List Int) : Run :=
  changeSelectedCloudsPointSize s (-1) selectedRows

/-- Lines 113-127: the colour dialog returns a colour or an invalid one. -/
def on_actionBackground_Color_triggered (s : Shell) (picked : Option Nat) : Shell :=
  match picked with
  | none => s
  | some c =>
    (s.record (Call.setBackgroundColor c)).record
      (Call.settingsSet "visualizer/bgcolor" (toString c))

/-- Lines 129-140. -/
def cloudModelChanged (env : Env) (s : Shell) (row : Int) (column : Nat) : Run :=
  match getCloud s (toSizeT row) with
  | (s1, Except.error err) => (s1, some err)
  | (s1, Except.ok cloud) =>
    if column = env.COLUMN_VISIBILITY then (updateOnVisibility s1 cloud, none)
    else (s1, none)

/-- The loop of lines 180-187, from index `i` on. -/
def mouseLoop (env : Env) (s : Shell) (i : Nat) : Run :=
  if i < (getNumberOfClouds s).2 then
    let s1 := (getCloud (getNumberOfClouds s).1 i).1
    match (getCloud (getNumberOfClouds s).1 i).2 with
    | Except.error err => (s1, some err)
    | Except.ok cloudEntry =>
      match cloudEntry.variant with
      | Variant.Adaptive =>
        mouseLoop env
          { s1 with store := s1.store.set i (updateVisualization env s1.camera cloudEntry),
                    log := s1.log ++ [Call.updateVisualization i cloudEntry] }
          (i + 1)
      | Variant.Static => mouseLoop env s1 (i + 1)
  else ((getNumberOfClouds s).1, none)
termination_by s.store.length - i
decreasing_by
  all_goals
    simp only [getNumberOfClouds, getCloud, Shell.record, List.length_set] at *
    omega

/-- Lines 176-189.  The event itself is not read. -/
def onVisualizerMouse (env : Env) (s : Shell) (_event : Nat) : Run :=
  if !s.actionLock_adaptive_view then mouseLoop env s 0
  else (s, none)

/-- Lines 191-193. -/
def onVisualizerKeyboard (s : Shell) (_event : Nat) : Shell :=
  s

/-- The loop of lines 224-235 over the rows the selection model reported, with
`deleted` rows removed so far.  `cloud` is a reference into the registry: after
`setVisible(false)` it designates the hidden entry. -/
def closeLoop (s : Shell) (deleted : Int) : List Int → Run
  | [] => (s, none)
  | row :: rest =>
    match getCloud s (toSizeT (row - deleted)) with
    | (s1, Except.error err) => (s1, some err)
    | (s1, Except.ok cloud) =>
      let s2 := setVisible s1 (toSizeT (row - deleted)) false
      let s3 := updateOnVisibility s2 { cloud with visible := false }
      closeLoop (removeCloud s3 (toSizeT (row - deleted))) (deleted + 1) rest

/-- Lines 219-236. -/
def on_actionClose_Cloud_triggered (s : Shell) (selectedRows : List Int) : Run :=
  closeLoop s 0 selectedRows

/-- Lines 238-260: the save dialog returns a path or a null string. -/
def on_actionCut_out_Subcloud_triggered (env : Env) (s : Shell) (dialog : Option String) :
    Run :=
  match dialog with
  | none => (s, none)
  | some filepath =>
    if s.knifePolygon.length < 3 || !env.isPolygonSimple s.knifePolygon then (s, none)
    else
      let s1 := filterVisibleCloudsTo env s s.knifePolygon filepath
      let tmp := s1.UseCache
      match loadCloudFromFile env { s1 with UseCache := false } (some filepath) with
      | (s2, some err) => (s2, some err)
      | (s2, none) => ({ s2 with UseCache := tmp }, none)

/-- Lines 262-266. -/
def on_actionUse_cache_triggered (s : Shell) : Shell :=
  { s with UseCache := s.actionUse_cache }

/-! ## Sequences of shell actions -/

/-- What can happen to the window once it is constructed: a slot is triggered with
the answer of its dialog or the rows the selection model reports, a checkable
action is clicked, the renderer reports an event, the user draws a knife polygon
or moves the camera. -/
inductive Action where
  | loadCloud (dialog : Option String)
  | closeCloud (selectedRows : List Int)
  | cutOutSubcloud (dialog : Option String)
  | useCache
  | lockAdaptiveView
  | useAdaptiveClouds
  | increasePointSize (selectedRows : List Int)
  | decreasePointSize (selectedRows : List Int)
  | backgroundColor (picked : Option Nat)
  | mouse (event : Nat)
  | keyboard (event : Nat)
  | modelChanged (row : Int) (column : Nat)
  | drawKnife (polygon : Polygon)
  | moveCamera (pose : Pose)
  deriving DecidableEq, Repr

/-- One action.  A click on the checkable "use cache" action flips its checked
state and then triggers the slot; the two other checkable actions have no slot. -/
def step (env : Env) (s : Shell) : Action → Run
  | Action.loadCloud dialog => on_actionLoad_Cloud_triggered env s dialog
  | Action.closeCloud rows => on_actionClose_Cloud_triggered s rows
  | Action.cutOutSubcloud dialog => on_actionCut_out_Subcloud_triggered env s dialog
  | Action.useCache =>
    (on_actionUse_cache_triggered { s with actionUse_cache := !s.actionUse_cache }, none)
  | Action.lockAdaptiveView =>
    ({ s with actionLock_adaptive_view := !s.actionLock_adaptive_view }, none)
  | Action.useAdaptiveClouds =>
    ({ s with actionUse_adaptive_clouds := !s.actionUse_adaptive_clouds }, none)
  | Action.increasePointSize rows => on_actionIncrease_point_size_triggered s rows
  | Action.decreasePointSize rows => on_actionDecrease_point_size_triggered s rows
  | Action.backgroundColor picked => (on_actionBackground_Color_triggered s picked, none)
  | Action.mouse event => onVisualizerMouse env s event
  | Action.keyboard event => (onVisualizerKeyboard s event, none)
  | Action.modelChanged row column => cloudModelChanged env s row column
  | Action.drawKnife polygon => ({ s with knifePolygon := polygon }, none)
  | Action.moveCamera pose => ({ s with camera := pose }, none)

/-- A sequence of actions; the window lives on in the state an action left, also
when the action ended with an error. -/
def runActions (env : Env) (s : Shell) (actions : List Action) : Shell :=
  actions.foldl (fun t a => (step env t a).1) s

/-! ## Reading the call log -/

/-- Every call except `openDB` and `filterVisibleCloudsTo`. -/
def Call.ordinary : Call → Bool
  | Call.openDB => false
  | Call.filterVisibleCloudsTo _ _ => false
  | _ => true

/-- Every call except `openDB`. -/
def Call.notOpenDB : Call → Bool
  | Call.openDB => false
  | _ => true

/-- The calls of the load algorithm: cache lookup, cache write, format reader. -/
def Call.isLoadStep : Call → Bool
  | Call.cacheGet _ => true
  | Call.cachePut _ => true
  | Call.readFile _ => true
  | _ => false

/-- State `t` has the cache flag and the checked state of "use cache" of `s`. -/
def SameFlags (s t : Shell) : Prop :=
  t.UseCache = s.UseCache ∧ t.actionUse_cache = s.actionUse_cache

/-- The invariant of the cache flag: `AdaptiveCloudEntry::UseCache` is the checked
state of the "use cache" action. -/
def FlagInSync (s : Shell) : Prop :=
  s.UseCache = s.actionUse_cache

/-- State `t` is reached from `s` by calls that all satisfy `P`. -/
def Emits (P : Call → Bool) (s t : Shell) : Prop :=
  ∃ d, t.log = s.log ++ d ∧ ∀ c ∈ d, P c = true

/-- The arguments of the `filterVisibleCloudsTo` calls of a log. -/
def filterCalls (l : List Call) : List (Polygon × String) :=
  l.filterMap fun c =>
    match c with
    | Call.filterVisibleCloudsTo polygon path => some (polygon, path)
    | _ => none

/-- The arguments of the `addCloud` calls of a log. -/
def addCalls (l : List Call) : List (String × String × Bool) :=
  l.filterMap fun c =>
    match c with
    | Call.addCloud name path useAdaptive => some (name, path, useAdaptive)
    | _ => none

/-- The entries handed to the renderer in a log. -/
def visualizeCalls (l : List Call) : List CloudEntry :=
  l.filterMap fun c =>
    match c with
    | Call.visualize e => some e
    | _ => none

/-- The indices passed to `getCloud` in a log. -/
def getCalls (l : List Call) : List Nat :=
  l.filterMap fun c =>
    match c with
    | Call.getCloud index => some index
    | _ => none

/-- The entries `updateVisualization` was called on in a log, with their index. -/
def recomputeCalls (l : List Call) : List (Nat × CloudEntry) :=
  l.filterMap fun c =>
    match c with
    | Call.updateVisualization index e => some (index, e)
    | _ => none

/-- The calls of a log that read or write a cache record. -/
def cacheCalls (l : List Call) : List Call :=
  l.filter fun c =>
    match c with
    | Call.cacheGet _ => true
    | Call.cachePut _ => true
    | _ => false

/-- The files written in a log. -/
def writeCalls (l : List Call) : List String :=
  l.filterMap fun c =>
    match c with
    | Call.writeFile path _ => some path
    | _ => none

/-- The entries released by the `removeCloud` calls of a log. -/
def removeCalls (l : List Call) : List (Option CloudEntry) :=
  l.filterMap fun c =>
    match c with
    | Call.removeCloud _ released => some released
    | _ => none

/-- The discipline of closing on a log: every `removeCloud` call comes right after
`getCloud`, `setVisible(false)`, `visualize` and a renderer update, all on its own
index, and the entry it releases is the hidden entry the renderer was handed. -/
def removalsHidden : List Call → Bool
  | Call.getCloud i :: Call.setVisible j v :: Call.visualize e :: Call.rendererUpdate ::
      Call.removeCloud k released :: rest =>
    decide (i = k ∧ j = k ∧ v = false ∧ e.visible = false ∧ released = some e) &&
      removalsHidden rest
  | Call.removeCloud _ _ :: _ => false
  | _ :: rest => removalsHidden rest
  | [] => true

/-- The entries of `l`, numbered from `base` on, whose number is not in `rows`, in
their order in `l`. -/
def unselectedFrom {α : Type} (base : Nat) (rows : List Nat) (l : List α) : List α :=
  ((l.enumFrom base).filter (fun p => decide (p.1 ∉ rows))).map Prod.snd

/-- The entries of a registry that are not at a selected row, in their original
relative order. -/
def unselected {α : Type} (rows : List Nat) (l : List α) : List α :=
  unselectedFrom 0 rows l

/-- An entry with its visibility set to false. -/
def hidden (e : CloudEntry) : CloudEntry :=
  { e with visible := false }

/-! ## Concrete inputs -/

/-- A concrete environment: every polygon is simple, every point is inside, every
file but `bad.las` parses to three points. -/
def mouseEnv : Env where
  isPolygonSimple := fun _ => true
  pointInPolygon := fun _ _ => true
  reader := fun path => if path = "bad.las" then none else some [1, 2, 3]
  fingerprint := fun path => path.length
  thin := fun pose pts => pts.take pose
  baseName := fun path => path
  absoluteFilePath := fun path => path
  absolutePath := fun _ => "/data"
  defaultVisible := true
  COLUMN_VISIBILITY := 1
  tmpDirExists := false

/-- A static entry named `name`. -/
def staticEntry (name : String) : CloudEntry where
  name := name
  filepath := name
  visible := true
  variant := Variant.Static
  points := [1, 2, 3]
  lod := [1, 2, 3]
  lastPose := 0

/-- An adaptive entry named `name`. -/
def adaptiveEntry (name : String) : CloudEntry where
  name := name
  filepath := name
  visible := true
  variant := Variant.Adaptive
  points := [1, 2, 3]
  lod := [1]
  lastPose := 0

/-- A window over three entries, "use cache" checked, nothing locked, a triangle as
knife polygon. -/
def mouseShell : Shell where
  store := [adaptiveEntry "a", staticEntry "b", adaptiveEntry "c"]
  UseCache := true
  cache := []
  actionUse_cache := true
  actionLock_adaptive_view := false
  actionUse_adaptive_clouds := true
  knifePolygon := [(0, 0), (4, 0), (0, 4)]
  camera := 2
  lastdir := none
  log := []

/-- The window of `mouseShell` with "lock adaptive view" engaged. -/
def lockedShell : Shell :=
  { mouseShell with actionLock_adaptive_view := true }

/-- The window of `mouseShell` with a knife "polygon" of two vertices. -/
def twoVertexShell : Shell :=
  { mouseShell with knifePolygon := [(0, 0), (1, 1)] }

/-- A window with an empty registry, `UseCache` set and "use cache" checked. -/
def emptyShell : Shell :=
  { mouseShell with store := [] }

/-! ## Basic facts about the log -/

theorem since_of_log {s t : Shell} {d : List Call} (h : t.log = s.log ++ d) :
    since s t = d := by
  simp [since, h]

theorem since_self (s : Shell) : since s s = [] := by
  simp [since]

theorem emits_refl (P : Call → Bool) (s : Shell) : Emits P s s :=
  ⟨[], by simp, by simp⟩

theorem emits_trans {P : Call → Bool} {s t u : Shell} (h1 : Emits P s t) (h2 : Emits P t u) :
    Emits P s u := by
  obtain ⟨d1, e1, p1⟩ := h1
  obtain ⟨d2, e2, p2⟩ := h2
  refine ⟨d1 ++ d2, by simp [e2, e1], ?_⟩
  intro c hc
  rcases List.mem_append.1 hc with h | h
  · exact p1 c h
  · exact p2 c h

theorem emits_mono {P Q : Call → Bool} {s t : Shell} (hPQ : ∀ c, P c = true → Q c = true)
    (h : Emits P s t) : Emits Q s t := by
  obtain ⟨d, e, p⟩ := h
  exact ⟨d, e, fun c hc => hPQ c (p c hc)⟩

theorem emits_of_log {P : Call → Bool} {s t : Shell} (d : List Call)
    (h : t.log = s.log ++ d) (hd : ∀ c ∈ d, P c = true) : Emits P s t :=
  ⟨d, h, hd⟩

theorem ordinary_notOpenDB (c : Call) (h : c.ordinary = true) : c.notOpenDB = true := by
  cases c <;> simp_all [Call.ordinary, Call.notOpenDB]

/-! ## Loading -/

theorem loadPoints_emits (env : Env) (s : Shell) (path : String) (a : Bool) :
    Emits Call.ordinary s (loadPoints env s path a).1 := by
  unfold loadPoints
  split
  · split
    · exact ⟨[Call.cacheGet (env.fingerprint path)], by simp [Shell.record],
        by simp [Call.ordinary]⟩
    · split
      · exact ⟨[Call.cacheGet (env.fingerprint path), Call.readFile path],
          by simp [Shell.record], by simp [Call.ordinary]⟩
      · exact ⟨[Call.cacheGet (env.fingerprint path), Call.readFile path,
          Call.cachePut (env.fingerprint path)], by simp [Shell.record],
          by simp [Call.ordinary]⟩
  · exact ⟨[Call.readFile path], by simp [Shell.record], by simp [Call.ordinary]⟩

theorem addCloud_emits (env : Env) (s : Shell) (name path : String) (a : Bool) :
    Emits Call.ordinary s (addCloud env s name path a).1 := by
  obtain ⟨d, hd, hc⟩ := loadPoints_emits env (s.record (Call.addCloud name path a)) path a
  unfold addCloud
  refine ⟨Call.addCloud name path a :: d, ?_, ?_⟩
  · split <;> simp_all [Shell.record]
  · intro c hc1
    rcases List.mem_cons.1 hc1 with h | h
    · subst h; rfl
    · exact hc c h

theorem loadCloudFromFile_emits (env : Env) (s : Shell) (filepath : Option String) :
    Emits Call.ordinary s (loadCloudFromFile env s filepath).1 := by
  cases filepath with
  | none => exact ⟨[], by simp [loadCloudFromFile], by simp⟩
  | some p =>
    obtain ⟨d, hd, hc⟩ := addCloud_emits env s (env.baseName p) (env.absoluteFilePath p)
      s.actionUse_adaptive_clouds
    simp only [loadCloudFromFile]
    generalize addCloud env s (env.baseName p) (env.absoluteFilePath p)
      s.actionUse_adaptive_clouds = r at hd
    obtain ⟨s1, _ | err⟩ := r
    · simp only [getNumberOfClouds, getCloud, Shell.record, updateOnVisibility]
      cases s1.store[subSizeT s1.store.length 1]? with
      | none =>
        refine ⟨d ++ [Call.getNumberOfClouds, Call.getCloud (subSizeT s1.store.length 1)],
          by simp_all, ?_⟩
        intro c hcm
        rcases List.mem_append.1 hcm with h | h
        · exact hc c h
        · simp at h; rcases h with h | h <;> subst h <;> rfl
      | some cloud =>
        refine ⟨d ++ [Call.getNumberOfClouds, Call.getCloud (subSizeT s1.store.length 1),
          Call.visualize cloud, Call.rendererUpdate,
          Call.settingsSet "main/lastdir" (env.absolutePath p)], by simp_all, ?_⟩
        intro c hcm
        rcases List.mem_append.1 hcm with h | h
        · exact hc c h
        · simp at h; rcases h with h | h | h | h | h <;> subst h <;> rfl
    · exact ⟨d, hd, hc⟩

theorem filterVisibleCloudsTo_valid (env : Env) (s : Shell) (p : String)
    (h3 : 3 ≤ s.knifePolygon.length) (hs : env.isPolygonSimple s.knifePolygon = true) :
    filterVisibleCloudsTo env s s.knifePolygon p =
      { s with log := s.log ++ [Call.filterVisibleCloudsTo s.knifePolygon p,
                                Call.writeFile p (pointsInside env s.store s.knifePolygon)] } := by
  have h : ¬ s.knifePolygon.length < 3 := by omega
  simp [filterVisibleCloudsTo, Shell.record, h, hs]

theorem cutOut_invalid (env : Env) (s : Shell) (dialog : Option String)
    (h : ¬ (dialog ≠ none ∧ 3 ≤ s.knifePolygon.length ∧
      env.isPolygonSimple s.knifePolygon = true)) :
    on_actionCut_out_Subcloud_triggered env s dialog = (s, none) := by
  cases dialog with
  | none => rfl
  | some p =>
    simp only [on_actionCut_out_Subcloud_triggered]
    by_cases h3 : s.knifePolygon.length < 3
    · simp [h3]
    · have hs : env.isPolygonSimple s.knifePolygon = false := by
        cases hv : env.isPolygonSimple s.knifePolygon with
        | false => rfl
        | true => exact absurd ⟨by simp, by omega, hv⟩ h
      simp [hs]

theorem cutOut_valid_log (env : Env) (s : Shell) (p : String)
    (h3 : 3 ≤ s.knifePolygon.length) (hs : env.isPolygonSimple s.knifePolygon = true) :
    ∃ d, (on_actionCut_out_Subcloud_triggered env s (some p)).1.log =
        s.log ++ (Call.filterVisibleCloudsTo s.knifePolygon p ::
          Call.writeFile p (pointsInside env s.store s.knifePolygon) :: d) ∧
      ∀ c ∈ d, c.ordinary = true := by
  have hf := filterVisibleCloudsTo_valid env s p h3 hs
  have h : ¬ s.knifePolygon.length < 3 := by omega
  obtain ⟨d, hd, hc⟩ := loadCloudFromFile_emits env
    { filterVisibleCloudsTo env s s.knifePolygon p with UseCache := false } (some p)
  refine ⟨d, ?_, hc⟩
  simp only [on_actionCut_out_Subcloud_triggered, h, hs]
  simp only [decide_False, Bool.not_true, Bool.or_self, Bool.false_eq_true, ↓reduceIte]
  generalize loadCloudFromFile env
    { filterVisibleCloudsTo env s s.knifePolygon p with UseCache := false } (some p) = r at hd
  obtain ⟨s2, _ | err⟩ := r
  · simp only at hd ⊢
    rw [hd, hf]; simp
  · simp only at hd ⊢
    rw [hd, hf]; simp

/-- C1. In `on_actionCut_out_Subcloud_triggered`, `filterVisibleCloudsTo` is called if
and only if the save path is non-null, the knife polygon has at least 3 vertices and
`math::isPolygonSimple` holds for it; in every other case the action returns the state
it was given, without error: no call, no file, no new entry, `UseCache` unchanged. -/
theorem cutOut_filters_iff_valid (env : Env) (s : Shell) (dialog : Option String) :
    ((∃ polygon path, Call.filterVisibleCloudsTo polygon path ∈
        since s (on_actionCut_out_Subcloud_triggered env s dialog).1) ↔
      (dialog ≠ none ∧ 3 ≤ s.knifePolygon.length ∧
        env.isPolygonSimple s.knifePolygon = true)) ∧
    (¬ (dialog ≠ none ∧ 3 ≤ s.knifePolygon.length ∧
        env.isPolygonSimple s.knifePolygon = true) →
      on_actionCut_out_Subcloud_triggered env s dialog = (s, none)) := by
  refine ⟨⟨?_, ?_⟩, cutOut_invalid env s dialog⟩
  · intro hcall
    by_contra hv
    rw [cutOut_invalid env s dialog hv, since_self] at hcall
    simp at hcall
  · rintro ⟨hd, h3, hs⟩
    obtain ⟨p, rfl⟩ := Option.ne_none_iff_exists'.1 hd
    obtain ⟨d, hlog, -⟩ := cutOut_valid_log env s p h3 hs
    exact ⟨s.knifePolygon, p, by rw [since_of_log hlog]; simp⟩

/-- C2. With "lock adaptive view" engaged, `onVisualizerMouse` returns the state it
was given: no `updateVisualization` call, the registry and its entries unchanged. -/
theorem onVisualizerMouse_locked (env : Env) (s : Shell) (event : Nat)
    (hlock : s.actionLock_adaptive_view = true) :
    onVisualizerMouse env s event = (s, none) ∧
    recomputeCalls (since s (onVisualizerMouse env s event).1) = [] ∧
    (onVisualizerMouse env s event).1.store = s.store := by
  have h : onVisualizerMouse env s event = (s, none) := by
    simp [onVisualizerMouse, hlock]
  rw [h]
  exact ⟨rfl, by simp [since_self, recomputeCalls], rfl⟩

theorem take_set_self {α : Type} (l : List α) (i : Nat) (a : α) :
    (l.set i a).take i = l.take i := by
  apply List.ext_getElem?
  intro j
  rw [List.getElem?_take, List.getElem?_take]
  split
  · next h1 => rw [List.getElem?_set_ne (by omega)]
  · rfl

theorem mouseLoop_spec (env : Env) (es : List CloudEntry) :
    ∀ (s : Shell) (i : Nat), s.store.drop i = es →
      ∃ d, mouseLoop env s i =
          ({ s with
              store := s.store.take i ++ es.map (fun e =>
                if e.variant = Variant.Adaptive then updateVisualization env s.camera e else e),
              log := s.log ++ d }, none) ∧
        recomputeCalls d = (es.enumFrom i).filter (fun p => p.2.variant = Variant.Adaptive) ∧
        getCalls d = List.range' i es.length ∧
        ∀ c ∈ d, c.notOpenDB = true := by
  induction es with
  | nil =>
    intro s i h
    have hi : s.store.length ≤ i := List.drop_eq_nil_iff.1 h
    refine ⟨[Call.getNumberOfClouds], ?_, by simp [recomputeCalls], by simp [getCalls],
      by simp [Call.notOpenDB]⟩
    rw [mouseLoop]
    simp [getNumberOfClouds, Shell.record, Nat.not_lt.2 hi, List.take_of_length_le hi]
  | cons e es ih =>
    intro s i h
    have hi : i < s.store.length := by
      by_contra hc
      rw [List.drop_eq_nil_iff.2 (Nat.not_lt.1 hc)] at h
      exact List.noConfusion h
    rw [List.drop_eq_getElem_cons hi] at h
    obtain ⟨he, hes⟩ := List.cons.inj h
    have hget : s.store[i]? = some e := by rw [List.getElem?_eq_getElem hi, he]
    rw [mouseLoop]
    simp only [getNumberOfClouds, getCloud, Shell.record, hi, hget, ↓reduceIte]
    cases hv : e.variant with
    | Static =>
      obtain ⟨d, hd, hr, hg, hn⟩ := ih
        { s with log := s.log ++ [Call.getNumberOfClouds] ++ [Call.getCloud i] } (i + 1) hes
      refine ⟨Call.getNumberOfClouds :: Call.getCloud i :: d, ?_, ?_, ?_, ?_⟩
      · rw [hd]
        simp [List.take_succ, hget, hv]
      · simp [recomputeCalls, List.enumFrom, hv] at hr ⊢
        exact hr
      · simp [getCalls, List.range'] at hg ⊢
        exact hg
      · intro c hc
        simp at hc
        rcases hc with h1 | h1 | h1
        · subst h1; rfl
        · subst h1; rfl
        · exact hn c h1
    | Adaptive =>
      obtain ⟨d, hd, hr, hg, hn⟩ := ih
        { s with
            store := s.store.set i (updateVisualization env s.camera e),
            log := s.log ++ [Call.getNumberOfClouds] ++ [Call.getCloud i] ++
              [Call.updateVisualization i e] } (i + 1)
        (by simp [List.drop_set_of_lt, hes])
      refine ⟨Call.getNumberOfClouds :: Call.getCloud i :: Call.updateVisualization i e :: d,
        ?_, ?_, ?_, ?_⟩
      · rw [hd]
        simp [List.take_succ, hget, hv, hi, take_set_self]
      · simp [recomputeCalls, List.enumFrom, hv] at hr ⊢
        exact hr
      · simp [getCalls, List.range'] at hg ⊢
        exact hg
      · intro c hc
        simp at hc
        rcases hc with h1 | h1 | h1 | h1
        · subst h1; rfl
        · subst h1; rfl
        · subst h1; rfl
        · exact hn c h1

/-- C3. With "lock adaptive view" not engaged, `onVisualizerMouse` ends without error
and calls `updateVisualization` exactly on the Adaptive entries of the registry, each
once and in index order: the calls, with their indices, are the enumerated registry
filtered to its Adaptive entries.  Every Adaptive entry is replaced by its recomputed
version, every Static entry is left as it is, and `getCloud` is called with the indices
`0, 1, ..., getNumberOfClouds() - 1`. -/
theorem onVisualizerMouse_unlocked (env : Env) (s : Shell) (event : Nat)
    (hlock : s.actionLock_adaptive_view = false) :
    (onVisualizerMouse env s event).2 = none ∧
    recomputeCalls (since s (onVisualizerMouse env s event).1) =
      s.store.enum.filter (fun p => p.2.variant = Variant.Adaptive) ∧
    (recomputeCalls (since s (onVisualizerMouse env s event).1)).map Prod.snd =
      s.store.filter (fun e => e.variant = Variant.Adaptive) ∧
    (onVisualizerMouse env s event).1.store = s.store.map (fun e =>
      if e.variant = Variant.Adaptive then updateVisualization env s.camera e else e) ∧
    getCalls (since s (onVisualizerMouse env s event).1) = List.range s.store.length := by
  obtain ⟨d, hd, hr, hg, -⟩ := mouseLoop_spec env s.store s 0 (by simp)
  have h : onVisualizerMouse env s event = mouseLoop env s 0 := by
    simp [onVisualizerMouse, hlock]
  rw [h, hd]
  have hs : since s { s with
      store := List.take 0 s.store ++ s.store.map (fun e =>
        if e.variant = Variant.Adaptive then updateVisualization env s.camera e else e),
      log := s.log ++ d } = d := since_of_log rfl
  refine ⟨rfl, ?_, ?_, by simp, ?_⟩
  · simp only [hs, hr, List.enum]
  · simp only [hs, hr]
    generalize 0 = k
    induction s.store generalizing k with
    | nil => simp
    | cons e es ih =>
      simp only [List.enumFrom, List.filter_cons]
      by_cases hv : e.variant = Variant.Adaptive <;> simp [hv, ih]
  · simp only [hs, hg, List.range_eq_range']

theorem onVisualizerMouse_unlocked_witness :
    (onVisualizerMouse mouseEnv mouseShell 0).2 = none ∧
    recomputeCalls (since mouseShell (onVisualizerMouse mouseEnv mouseShell 0).1) =
      mouseShell.store.enum.filter (fun p => p.2.variant = Variant.Adaptive) ∧
    (recomputeCalls (since mouseShell (onVisualizerMouse mouseEnv mouseShell 0).1)).map
      Prod.snd = mouseShell.store.filter (fun e => e.variant = Variant.Adaptive) ∧
    (onVisualizerMouse mouseEnv mouseShell 0).1.store = mouseShell.store.map (fun e =>
      if e.variant = Variant.Adaptive then updateVisualization mouseEnv mouseShell.camera e
      else e) ∧
    getCalls (since mouseShell (onVisualizerMouse mouseEnv mouseShell 0).1) =
      List.range mouseShell.store.length :=
  onVisualizerMouse_unlocked mouseEnv mouseShell 0 rfl

theorem toSizeT_sub (row deleted : Nat) (hd : deleted ≤ row) (hr : row - deleted < 2 ^ 64) :
    toSizeT ((row : Int) - (deleted : Int)) = row - deleted := by
  unfold toSizeT SIZE_BITS
  have h1 : ((row : Int) - (deleted : Int)) = ((row - deleted : Nat) : Int) := by omega
  rw [h1]
  have h2 : (((row - deleted : Nat) : Int) % (2 ^ 64 : Int)) = ((row - deleted : Nat) : Int) := by
    apply Int.emod_eq_of_lt
    · omega
    · have : ((2 : Int) ^ 64) = ((2 ^ 64 : Nat) : Int) := by norm_num
      rw [this]
      exact_mod_cast hr
  rw [h2]
  simp

theorem eraseIdx_set_self {α : Type} (l : List α) (i : Nat) (a : α) :
    (l.set i a).eraseIdx i = l.eraseIdx i := by
  rw [List.eraseIdx_eq_take_drop_succ, List.eraseIdx_eq_take_drop_succ, take_set_self,
    List.drop_set_of_lt a l (Nat.lt_succ_self i)]

/-- One round of the close loop on an index inside the registry. -/
theorem closeLoop_cons_some (s : Shell) (deleted row : Int) (rest : List Int) (e : CloudEntry)
    (h : s.store[toSizeT (row - deleted)]? = some e) :
    closeLoop s deleted (row :: rest) =
      closeLoop
        { s with
            store := s.store.eraseIdx (toSizeT (row - deleted)),
            log := s.log ++ [Call.getCloud (toSizeT (row - deleted)),
              Call.setVisible (toSizeT (row - deleted)) false,
              Call.visualize { e with visible := false },
              Call.rendererUpdate,
              Call.removeCloud (toSizeT (row - deleted)) (some { e with visible := false })] }
        (deleted + 1) rest := by
  have hlt : toSizeT (row - deleted) < s.store.length := by
    by_contra hc
    rw [List.getElem?_eq_none (Nat.not_lt.1 hc)] at h
    exact Option.noConfusion h
  rw [closeLoop]
  simp only [getCloud, Shell.record, h, setVisible, updateOnVisibility, removeCloud]
  congr 1
  simp [eraseIdx_set_self, hlt]

/-- One round of the close loop on an index outside the registry. -/
theorem closeLoop_cons_none (s : Shell) (deleted row : Int) (rest : List Int)
    (h : s.store[toSizeT (row - deleted)]? = none) :
    closeLoop s deleted (row :: rest) =
      (s.record (Call.getCloud (toSizeT (row - deleted))),
        some (ShellError.IndexError (toSizeT (row - deleted)))) := by
  rw [closeLoop]
  simp only [getCloud, h]

theorem closeLoop_log (rows : List Int) :
    ∀ (s : Shell) (deleted : Int),
      ∃ d, (closeLoop s deleted rows).1.log = s.log ++ d ∧ removalsHidden d = true ∧
        removeCalls d = (visualizeCalls d).map some ∧
        (∀ e ∈ visualizeCalls d, e.visible = false) ∧
        ∀ c ∈ d, c.notOpenDB = true := by
  induction rows with
  | nil =>
    intro s deleted
    exact ⟨[], by simp [closeLoop], by simp [removalsHidden],
      by simp [removeCalls, visualizeCalls], by simp [visualizeCalls], by simp⟩
  | cons row rest ih =>
    intro s deleted
    cases h : s.store[toSizeT (row - deleted)]? with
    | none =>
      rw [closeLoop_cons_none s deleted row rest h]
      exact ⟨[Call.getCloud (toSizeT (row - deleted))], by simp [Shell.record],
        by simp [removalsHidden], by simp [removeCalls, visualizeCalls],
        by simp [visualizeCalls], by simp [Call.notOpenDB]⟩
    | some e =>
      rw [closeLoop_cons_some s deleted row rest e h]
      obtain ⟨d, hd, hr, hrm, hvis, hn⟩ := ih
        { s with
            store := s.store.eraseIdx (toSizeT (row - deleted)),
            log := s.log ++ [Call.getCloud (toSizeT (row - deleted)),
              Call.setVisible (toSizeT (row - deleted)) false,
              Call.visualize { e with visible := false },
              Call.rendererUpdate,
              Call.removeCloud (toSizeT (row - deleted)) (some { e with visible := false })] }
        (deleted + 1)
      refine ⟨[Call.getCloud (toSizeT (row - deleted)),
              Call.setVisible (toSizeT (row - deleted)) false,
              Call.visualize { e with visible := false },
              Call.rendererUpdate,
              Call.removeCloud (toSizeT (row - deleted)) (some { e with visible := false })]
              ++ d, ?_, ?_, ?_, ?_, ?_⟩
      · rw [hd]; simp
      · simp [removalsHidden, hr]
      · simp only [removeCalls, visualizeCalls] at hrm ⊢
        simp [hrm]
      · intro x hx
        simp only [visualizeCalls] at hvis hx
        simp at hx
        rcases hx with hx | hx
        · rw [hx]
        · exact hvis x (by simpa using hx)
      · intro c hc
        rcases List.mem_append.1 hc with h1 | h1
        · simp at h1
          rcases h1 with h1 | h1 | h1 | h1 | h1 <;> subst h1 <;> rfl
        · exact hn c h1

/-- C4. In `on_actionClose_Cloud_triggered`, whatever rows the selection model reports,
every `removeCloud` call comes right after `getCloud`, `setVisible(false)`, `visualize`
and the renderer update for the same index, and the entry it releases is the hidden
entry the renderer was just handed: no entry is removed while still visible or before
its hiding reached the renderer. -/
theorem close_hides_before_remove (s : Shell) (selectedRows : List Int) :
    removalsHidden (since s (on_actionClose_Cloud_triggered s selectedRows).1) = true ∧
    removeCalls (since s (on_actionClose_Cloud_triggered s selectedRows).1) =
      (visualizeCalls (since s (on_actionClose_Cloud_triggered s selectedRows).1)).map some ∧
    ∀ e ∈ visualizeCalls (since s (on_actionClose_Cloud_triggered s selectedRows).1),
      e.visible = false := by
  obtain ⟨d, hd, hr, hrm, hvis, -⟩ := closeLoop_log selectedRows s 0
  have hs : since s (on_actionClose_Cloud_triggered s selectedRows).1 = d :=
    since_of_log hd
  rw [hs]
  exact ⟨hr, hrm, hvis⟩

theorem unselectedFrom_nil_rows {α : Type} (base : Nat) (l : List α) :
    unselectedFrom base [] l = l := by
  induction l generalizing base with
  | nil => rfl
  | cons x xs ih =>
    have := ih (base + 1)
    simp only [unselectedFrom] at this ⊢
    simp [List.enumFrom, this]

theorem unselectedFrom_cons {α : Type} (base : Nat) (rows : List Nat) (x : α) (xs : List α) :
    unselectedFrom base rows (x :: xs) =
      if base ∈ rows then unselectedFrom (base + 1) rows xs
      else x :: unselectedFrom (base + 1) rows xs := by
  by_cases h : base ∈ rows <;> simp [unselectedFrom, List.enumFrom, h]

theorem unselectedFrom_small {α : Type} (r : Nat) (rest : List Nat) (l : List α) :
    ∀ base, r < base → unselectedFrom base (r :: rest) l = unselectedFrom base rest l := by
  induction l with
  | nil => intro base _; rfl
  | cons x xs ih =>
    intro base hb
    rw [unselectedFrom_cons, unselectedFrom_cons, ih (base + 1) (by omega)]
    have : base ≠ r := by omega
    simp [this]

theorem unselectedFrom_row {α : Type} (r : Nat) (rest : List Nat) (hrest : ∀ x ∈ rest, r < x)
    (l : List α) :
    ∀ base, base ≤ r → r < base + l.length →
      unselectedFrom base (r :: rest) l =
        l.take (r - base) ++ unselectedFrom (r + 1) rest (l.drop (r - base + 1)) := by
  induction l with
  | nil => intro base h1 h2; simp at h2; omega
  | cons x xs ih =>
    intro base h1 h2
    rw [unselectedFrom_cons]
    by_cases hb : base = r
    · subst hb
      simp [unselectedFrom_small]
    · have hlt : base < r := by omega
      have hnot : base ∉ r :: rest := by
        intro hm
        rcases List.mem_cons.1 hm with h | h
        · exact hb h
        · have := hrest base h; omega
      rw [if_neg hnot, ih (base + 1) (by omega) (by simp at h2; omega)]
      have e1 : r - base = (r - (base + 1)) + 1 := by omega
      rw [e1]
      simp

theorem closeLoop_ascending (rows : List Nat) :
    ∀ (s : Shell) (A l : List CloudEntry) (base deleted : Nat),
      rows.Pairwise (· < ·) → s.store = A ++ l → A.length + deleted = base →
      (∀ r ∈ rows, base ≤ r ∧ r < base + l.length) → (∀ r ∈ rows, r < 2 ^ 31) →
      ∃ d, closeLoop s (deleted : Int) (rows.map (fun (r : Nat) => (r : Int))) =
          ({ s with store := A ++ unselectedFrom base rows l, log := s.log ++ d }, none) ∧
        removeCalls d = rows.map (fun r => (l[r - base]?).map hidden) := by
  induction rows with
  | nil =>
    intro s A l base deleted _ hs _ _ _
    refine ⟨[], ?_, by simp [removeCalls]⟩
    simp [closeLoop, unselectedFrom_nil_rows, ← hs]
  | cons r rest ih =>
    intro s A l base deleted hsorted hs hbase hrange hsize
    obtain ⟨hb, hr⟩ := hrange r (List.mem_cons_self r rest)
    have hr31 : r < 2 ^ 31 := hsize r (List.mem_cons_self r rest)
    have hrest : ∀ x ∈ rest, r < x := (List.pairwise_cons.1 hsorted).1
    have hlen : s.store.length = A.length + l.length := by rw [hs]; simp
    have hidx : toSizeT ((r : Int) - (deleted : Int)) = A.length + (r - base) := by
      rw [toSizeT_sub r deleted (by omega) (by omega)]
      omega
    have hlt : r - base < l.length := by omega
    have hget : s.store[toSizeT ((r : Int) - (deleted : Int))]? = some l[r - base] := by
      rw [hidx, hs, List.getElem?_append_right (by omega)]
      simp [List.getElem?_eq_getElem hlt]
    simp only [List.map_cons]
    rw [closeLoop_cons_some s deleted r (rest.map (fun (r : Nat) => (r : Int))) _ hget, hidx]
    have herase : s.store.eraseIdx (A.length + (r - base)) =
        (A ++ l.take (r - base)) ++ l.drop (r - base + 1) := by
      rw [hs, List.eraseIdx_append_of_length_le (by omega)]
      simp [List.eraseIdx_eq_take_drop_succ]
    have hcast : ((deleted : Int) + 1) = ((deleted + 1 : Nat) : Int) := by push_cast; rfl
    rw [hcast]
    obtain ⟨d, hd, hrm⟩ := ih
      { s with
          store := s.store.eraseIdx (A.length + (r - base)),
          log := s.log ++ [Call.getCloud (A.length + (r - base)),
            Call.setVisible (A.length + (r - base)) false,
            Call.visualize { l[r - base] with visible := false },
            Call.rendererUpdate,
            Call.removeCloud (A.length + (r - base))
              (some { l[r - base] with visible := false })] }
      (A ++ l.take (r - base)) (l.drop (r - base + 1)) (r + 1) (deleted + 1)
      (List.pairwise_cons.1 hsorted).2 herase
      (by simp [List.length_take]; omega)
      (by
        intro x hx
        have h1 := hrest x hx
        have h2 := (hrange x (List.mem_cons_of_mem r hx)).2
        simp [List.length_drop]
        omega)
      (fun x hx => hsize x (List.mem_cons_of_mem r hx))
    refine ⟨[Call.getCloud (A.length + (r - base)),
            Call.setVisible (A.length + (r - base)) false,
            Call.visualize { l[r - base] with visible := false },
            Call.rendererUpdate,
            Call.removeCloud (A.length + (r - base))
              (some { l[r - base] with visible := false })] ++ d, ?_, ?_⟩
    · rw [hd, unselectedFrom_row r rest hrest l base hb hr]
      simp
    · simp only [removeCalls] at hrm ⊢
      simp only [List.filterMap_append, List.map_cons]
      rw [hrm]
      simp only [List.filterMap_cons, List.filterMap_nil, List.singleton_append]
      congr 1
      · simp [List.getElem?_eq_getElem hlt, hidden]
      · apply List.map_congr_left
        intro x hx
        have h1 := hrest x hx
        rw [List.getElem?_drop]
        congr 2
        omega

/-- C5. With `removeCloud(i)` deleting position `i` and shifting later entries down by
one: for distinct in-range selected rows (values of `int`) reported in ascending order,
`on_actionClose_Cloud_triggered` ends without error, releases exactly the entries that
were at the selected rows (hidden, in that order), and leaves the unselected entries in
their original relative order. -/
theorem close_ascending_removes_selected (s : Shell) (rows : List Nat)
    (hsorted : rows.Pairwise (· < ·)) (hrange : ∀ r ∈ rows, r < s.store.length)
    (hint : ∀ r ∈ rows, r < 2 ^ 31) :
    (on_actionClose_Cloud_triggered s (rows.map (fun (r : Nat) => (r : Int)))).2 = none ∧
    (on_actionClose_Cloud_triggered s (rows.map (fun (r : Nat) => (r : Int)))).1.store =
      unselected rows s.store ∧
    removeCalls (since s
        (on_actionClose_Cloud_triggered s (rows.map (fun (r : Nat) => (r : Int)))).1) =
      rows.map (fun r => (s.store[r]?).map hidden) := by
  obtain ⟨d, hd, hrm⟩ := closeLoop_ascending rows s [] s.store 0 0 hsorted (by simp) rfl
    (by intro r hr; exact ⟨Nat.zero_le r, by simpa using hrange r hr⟩) hint
  have h0 : on_actionClose_Cloud_triggered s (rows.map (fun (r : Nat) => (r : Int))) =
      closeLoop s ((0 : Nat) : Int) (rows.map (fun (r : Nat) => (r : Int))) := rfl
  rw [h0, hd]
  refine ⟨rfl, by simp [unselected], ?_⟩
  rw [since_of_log (d := d) rfl, hrm]
  simp

theorem close_ascending_removes_selected_witness :
    (on_actionClose_Cloud_triggered mouseShell [1]).2 = none ∧
    (on_actionClose_Cloud_triggered mouseShell [1]).1.store =
      [adaptiveEntry "a", adaptiveEntry "c"] ∧
    removeCalls (since mouseShell (on_actionClose_Cloud_triggered mouseShell [1]).1) =
      [some (hidden (staticEntry "b"))] :=
  close_ascending_removes_selected mouseShell [1] (by simp) (by simp [mouseShell])
    (by simp)

theorem changeSelectedCloudsPointSize_emits (diff : Int) (rows : List Int) :
    ∀ s : Shell, Emits Call.notOpenDB s (changeSelectedCloudsPointSize s diff rows).1 := by
  induction rows with
  | nil => intro s; exact emits_refl _ s
  | cons row rest ih =>
    intro s
    rw [changeSelectedCloudsPointSize]
    simp only [getCloud]
    cases s.store[toSizeT row]? with
    | none => exact ⟨[Call.getCloud (toSizeT row)], rfl, by simp [Call.notOpenDB]⟩
    | some cloud =>
      refine emits_trans ?_ (ih _)
      exact ⟨[Call.getCloud (toSizeT row), Call.changePointSize cloud.name diff,
        Call.rendererUpdate], by simp [changeCloudPointSize, Shell.record],
        by simp [Call.notOpenDB]⟩

theorem cloudModelChanged_emits (env : Env) (s : Shell) (row : Int) (column : Nat) :
    Emits Call.notOpenDB s (cloudModelChanged env s row column).1 := by
  simp only [cloudModelChanged, getCloud]
  cases s.store[toSizeT row]? with
  | none => exact ⟨[Call.getCloud (toSizeT row)], rfl, by simp [Call.notOpenDB]⟩
  | some cloud =>
    by_cases hc : column = env.COLUMN_VISIBILITY
    · simp only [hc, ↓reduceIte]
      exact ⟨[Call.getCloud (toSizeT row), Call.visualize cloud, Call.rendererUpdate],
        by simp [updateOnVisibility, Shell.record], by simp [Call.notOpenDB]⟩
    · simp only [hc, ↓reduceIte]
      exact ⟨[Call.getCloud (toSizeT row)], rfl, by simp [Call.notOpenDB]⟩

theorem onVisualizerMouse_emits (env : Env) (s : Shell) (event : Nat) :
    Emits Call.notOpenDB s (onVisualizerMouse env s event).1 := by
  cases hl : s.actionLock_adaptive_view with
  | true =>
    have h : onVisualizerMouse env s event = (s, none) := by simp [onVisualizerMouse, hl]
    rw [h]; exact emits_refl _ s
  | false =>
    obtain ⟨d, hd, -, -, hn⟩ := mouseLoop_spec env s.store s 0 (by simp)
    have h : onVisualizerMouse env s event = mouseLoop env s 0 := by
      simp [onVisualizerMouse, hl]
    rw [h, hd]
    exact ⟨d, rfl, hn⟩

theorem cutOut_emits (env : Env) (s : Shell) (dialog : Option String) :
    Emits Call.notOpenDB s (on_actionCut_out_Subcloud_triggered env s dialog).1 := by
  by_cases hv : dialog ≠ none ∧ 3 ≤ s.knifePolygon.length ∧
      env.isPolygonSimple s.knifePolygon = true
  · obtain ⟨hd, h3, hs⟩ := hv
    obtain ⟨p, rfl⟩ := Option.ne_none_iff_exists'.1 hd
    obtain ⟨d, hlog, hc⟩ := cutOut_valid_log env s p h3 hs
    refine ⟨_, hlog, ?_⟩
    intro c hcm
    simp only [List.mem_cons] at hcm
    rcases hcm with h | h | h
    · subst h; rfl
    · subst h; rfl
    · exact ordinary_notOpenDB c (hc c h)
  · rw [cutOut_invalid env s dialog hv]
    exact emits_refl _ s

theorem step_emits (env : Env) (s : Shell) (a : Action) :
    Emits Call.notOpenDB s (step env s a).1 := by
  cases a with
  | loadCloud dialog =>
    exact emits_mono ordinary_notOpenDB (loadCloudFromFile_emits env s dialog)
  | closeCloud rows =>
    obtain ⟨d, hd, -, -, -, hn⟩ := closeLoop_log rows s 0
    exact ⟨d, hd, hn⟩
  | cutOutSubcloud dialog => exact cutOut_emits env s dialog
  | useCache => exact ⟨[], by simp [step, on_actionUse_cache_triggered], by simp⟩
  | lockAdaptiveView => exact ⟨[], by simp [step], by simp⟩
  | useAdaptiveClouds => exact ⟨[], by simp [step], by simp⟩
  | increasePointSize rows => exact changeSelectedCloudsPointSize_emits 1 rows s
  | decreasePointSize rows => exact changeSelectedCloudsPointSize_emits (-1) rows s
  | backgroundColor picked =>
    cases picked with
    | none => exact emits_refl _ s
    | some c =>
      exact ⟨[Call.setBackgroundColor c, Call.settingsSet "visualizer/bgcolor" (toString c)],
        by simp [step, on_actionBackground_Color_triggered, Shell.record],
        by simp [Call.notOpenDB]⟩
  | mouse event => exact onVisualizerMouse_emits env s event
  | keyboard event => exact emits_refl _ s
  | modelChanged row column => exact cloudModelChanged_emits env s row column
  | drawKnife polygon => exact ⟨[], by simp [step], by simp⟩
  | moveCamera pose => exact ⟨[], by simp [step], by simp⟩

theorem runActions_emits (env : Env) (actions : List Action) :
    ∀ s : Shell, Emits Call.notOpenDB s (runActions env s actions) := by
  induction actions with
  | nil => intro s; exact emits_refl _ s
  | cons a rest ih =>
    intro s
    exact emits_trans (step_emits env s a) (ih (step env s a).1)

/-- C7. Started with an empty call log, the constructor calls `openDB`, then `prepareDB`,
then creates the `tmp` folder if it does not exist, and makes no other call, so no
`addCloud`; after any sequence of shell actions the log still starts with `openDB`,
`prepareDB`, no later call is `openDB`, and every `addCloud` call has `openDB` followed by
`prepareDB` before it. -/
theorem cache_opened_once_before_loads (env : Env) (s : Shell) (hlog : s.log = [])
    (actions : List Action) :
    (SmogMainWindow env s).log =
      Call.openDB :: Call.prepareDB :: (if env.tmpDirExists then [] else [Call.mkTmpDir]) ∧
    addCalls (SmogMainWindow env s).log = [] ∧
    (∃ rest, (runActions env (SmogMainWindow env s) actions).log =
        Call.openDB :: Call.prepareDB :: rest ∧ Call.openDB ∉ rest) ∧
    (runActions env (SmogMainWindow env s) actions).log.count Call.openDB = 1 ∧
    ∀ before after name path useAdaptive,
      (runActions env (SmogMainWindow env s) actions).log =
        before ++ Call.addCloud name path useAdaptive :: after →
      ∃ mid, before = Call.openDB :: Call.prepareDB :: mid := by
  have hc : (SmogMainWindow env s).log =
      Call.openDB :: Call.prepareDB :: (if env.tmpDirExists then [] else [Call.mkTmpDir]) := by
    cases htmp : env.tmpDirExists <;> simp [SmogMainWindow, Shell.record, hlog, htmp]
  obtain ⟨d, hd, hn⟩ := runActions_emits env actions (SmogMainWindow env s)
  rw [hc] at hd
  have hnot : Call.openDB ∉ (if env.tmpDirExists then [] else [Call.mkTmpDir]) ++ d := by
    intro hm
    rcases List.mem_append.1 hm with h | h
    · cases htmp : env.tmpDirExists <;> simp [htmp] at h
    · have := hn _ h
      simp [Call.notOpenDB] at this
  refine ⟨hc, ?_, ⟨(if env.tmpDirExists then [] else [Call.mkTmpDir]) ++ d,
    by simp [hd], hnot⟩, ?_, ?_⟩
  · rw [hc]
    cases htmp : env.tmpDirExists <;> simp [addCalls]
  · rw [hd]
    simp only [List.cons_append, List.count_cons_self]
    rw [List.count_cons_of_ne (by decide), List.count_eq_zero_of_not_mem hnot]
  · intro before after name path useAdaptive hsplit
    rw [hd] at hsplit
    match before, hsplit with
    | [], h => simp at h
    | [_], h => simp at h
    | a :: b :: mid, h =>
      simp only [List.cons_append, List.cons.injEq] at h
      exact ⟨mid, by rw [← h.1, ← h.2.1]⟩

theorem cache_opened_once_before_loads_witness :
    (SmogMainWindow mouseEnv mouseShell).log =
      Call.openDB :: Call.prepareDB ::
        (if mouseEnv.tmpDirExists then [] else [Call.mkTmpDir]) ∧
    addCalls (SmogMainWindow mouseEnv mouseShell).log = [] ∧
    (∃ rest, (runActions mouseEnv (SmogMainWindow mouseEnv mouseShell)
        [Action.loadCloud (some "a.las"), Action.mouse 0]).log =
        Call.openDB :: Call.prepareDB :: rest ∧ Call.openDB ∉ rest) ∧
    (runActions mouseEnv (SmogMainWindow mouseEnv mouseShell)
      [Action.loadCloud (some "a.las"), Action.mouse 0]).log.count Call.openDB = 1 ∧
    ∀ before after name path useAdaptive,
      (runActions mouseEnv (SmogMainWindow mouseEnv mouseShell)
        [Action.loadCloud (some "a.las"), Action.mouse 0]).log =
        before ++ Call.addCloud name path useAdaptive :: after →
      ∃ mid, before = Call.openDB :: Call.prepareDB :: mid :=
  cache_opened_once_before_loads mouseEnv mouseShell rfl
    [Action.loadCloud (some "a.las"), Action.mouse 0]

/-- The load algorithm changes the cache and the log only, by load steps; with the
cache flag off it calls the format reader and nothing else. -/
theorem loadPoints_spec (env : Env) (s : Shell) (path : String) (a : Bool) :
    ∃ d, (loadPoints env s path a).1 =
        { s with cache := (loadPoints env s path a).1.cache, log := s.log ++ d } ∧
      (∀ c ∈ d, c.isLoadStep = true) ∧
      (s.UseCache = false →
        d = [Call.readFile path] ∧ (loadPoints env s path a).1.cache = s.cache) := by
  unfold loadPoints
  split
  · rename_i hflag
    have hu : s.UseCache = true := by
      simp only [Bool.and_eq_true] at hflag
      exact hflag.2
    split
    · exact ⟨[Call.cacheGet (env.fingerprint path)], by simp [Shell.record],
        by simp [Call.isLoadStep], by simp [hu]⟩
    · split
      · exact ⟨[Call.cacheGet (env.fingerprint path), Call.readFile path],
          by simp [Shell.record], by simp [Call.isLoadStep], by simp [hu]⟩
      · exact ⟨[Call.cacheGet (env.fingerprint path), Call.readFile path,
          Call.cachePut (env.fingerprint path)], by simp [Shell.record],
          by simp [Call.isLoadStep], by simp [hu]⟩
  · exact ⟨[Call.readFile path], by simp [Shell.record], by simp [Call.isLoadStep],
      by simp [Shell.record]⟩

/-- The entry `addCloud` constructs from the points it loaded. -/
theorem addCloud_spec (env : Env) (s : Shell) (name path : String) (a : Bool) :
    ∃ d, (∀ c ∈ d, c.isLoadStep = true) ∧
      (s.UseCache = false → d = [Call.readFile path] ∧
        (addCloud env s name path a).1.cache = s.cache) ∧
      (((addCloud env s name path a).2 = some (ShellError.LoadError path) ∧
        (addCloud env s name path a).1 =
          { s with cache := (addCloud env s name path a).1.cache,
                   log := s.log ++ Call.addCloud name path a :: d }) ∨
       ((addCloud env s name path a).2 = none ∧
        ∃ e, e.name = name ∧ e.filepath = path ∧
          e.variant = (if a then Variant.Adaptive else Variant.Static) ∧
          (addCloud env s name path a).1 =
            { s with store := s.store ++ [e],
                     cache := (addCloud env s name path a).1.cache,
                     log := s.log ++ Call.addCloud name path a :: d })) := by
  obtain ⟨d, hd, hsteps, hoff⟩ :=
    loadPoints_spec env (s.record (Call.addCloud name path a)) path a
  refine ⟨d, hsteps, ?_, ?_⟩
  · intro hu
    obtain ⟨h1, h2⟩ := hoff hu
    refine ⟨h1, ?_⟩
    unfold addCloud
    split
    · rename_i s1 heq
      rw [heq] at h2; exact h2
    · rename_i s1 pts heq
      rw [heq] at h2; exact h2
  · unfold addCloud
    split
    · rename_i s1 heq
      left
      rw [heq] at hd
      refine ⟨rfl, ?_⟩
      simp only at hd ⊢
      rw [hd]
      simp [Shell.record]
    · rename_i s1 pts heq
      right
      rw [heq] at hd
      refine ⟨rfl, ?_⟩
      simp only at hd ⊢
      refine ⟨CloudEntry.mk name path env.defaultVisible
        (if a then Variant.Adaptive else Variant.Static) pts
        (if a then env.thin s1.camera pts else pts) s1.camera, rfl, rfl, rfl, ?_⟩
      rw [hd]
      simp [Shell.record]

theorem subSizeT_one (n : Nat) (h0 : 0 < n) (hn : n ≤ 2 ^ 64) : subSizeT n 1 = n - 1 := by
  simp only [subSizeT, SIZE_BITS]
  omega

/-- A reload with the cache flag off: `addCloud`, then the format reader, then calls
that touch neither the cache nor the filter; the cache is left as it was. -/
theorem loadCloudFromFile_uncached (env : Env) (s : Shell) (p : String)
    (hu : s.UseCache = false) :
    ∃ rest, (loadCloudFromFile env s (some p)).1.log =
        s.log ++ Call.addCloud (env.baseName p) (env.absoluteFilePath p)
          s.actionUse_adaptive_clouds :: Call.readFile (env.absoluteFilePath p) :: rest ∧
      cacheCalls rest = [] ∧ filterCalls rest = [] ∧ addCalls rest = [] ∧
      (loadCloudFromFile env s (some p)).1.cache = s.cache := by
  obtain ⟨d, -, hoff, hcase⟩ := addCloud_spec env s (env.baseName p) (env.absoluteFilePath p)
    s.actionUse_adaptive_clouds
  obtain ⟨hd, hcache⟩ := hoff hu
  subst hd
  simp only [loadCloudFromFile]
  generalize addCloud env s (env.baseName p) (env.absoluteFilePath p)
    s.actionUse_adaptive_clouds = r at hcase hcache
  obtain ⟨s1, err⟩ := r
  rcases hcase with ⟨herr, hs1⟩ | ⟨herr, e, -, -, -, hs1⟩
  · simp only at herr hs1 hcache
    subst herr
    exact ⟨[], by rw [hs1], rfl, rfl, rfl, hcache⟩
  · simp only at herr hs1 hcache
    subst herr
    simp only [getNumberOfClouds, getCloud, Shell.record, updateOnVisibility]
    cases s1.store[subSizeT s1.store.length 1]? with
    | none =>
      exact ⟨[Call.getNumberOfClouds, Call.getCloud (subSizeT s1.store.length 1)],
        by simp only []; rw [hs1]; simp, rfl, rfl, rfl, hcache⟩
    | some cloud =>
      exact ⟨[Call.getNumberOfClouds, Call.getCloud (subSizeT s1.store.length 1),
          Call.visualize cloud, Call.rendererUpdate,
          Call.settingsSet "main/lastdir" (env.absolutePath p)],
        by simp only []; rw [hs1]; simp, rfl, rfl, rfl, hcache⟩

/-- A load that `addCloud` completes: the new entry is appended, looked up at the last
index and handed to the renderer. -/
theorem loadCloudFromFile_loaded (env : Env) (s : Shell) (p : String)
    (hsize : s.store.length < 2 ^ 64)
    (hok : (addCloud env s (env.baseName p) (env.absoluteFilePath p)
      s.actionUse_adaptive_clouds).2 = none) :
    ∃ e d, (∀ c ∈ d, c.isLoadStep = true) ∧
      e.name = env.baseName p ∧ e.filepath = env.absoluteFilePath p ∧
      e.variant = (if s.actionUse_adaptive_clouds then Variant.Adaptive else Variant.Static) ∧
      loadCloudFromFile env s (some p) =
        ({ s with
            store := s.store ++ [e],
            cache := (loadCloudFromFile env s (some p)).1.cache,
            lastdir := some (env.absolutePath p),
            log := s.log ++ Call.addCloud (env.baseName p) (env.absoluteFilePath p)
              s.actionUse_adaptive_clouds :: d ++
              [Call.getNumberOfClouds, Call.getCloud s.store.length, Call.visualize e,
                Call.rendererUpdate, Call.settingsSet "main/lastdir" (env.absolutePath p)] },
          none) := by
  obtain ⟨d, hsteps, -, hcase⟩ := addCloud_spec env s (env.baseName p)
    (env.absoluteFilePath p) s.actionUse_adaptive_clouds
  simp only [loadCloudFromFile]
  generalize addCloud env s (env.baseName p) (env.absoluteFilePath p)
    s.actionUse_adaptive_clouds = r at hcase hok
  obtain ⟨s1, err⟩ := r
  simp only at hok
  subst hok
  rcases hcase with ⟨herr, -⟩ | ⟨-, e, hname, hpath, hvar, hs1⟩
  · exact Option.noConfusion herr
  · simp only at hs1
    have hlen : s1.store.length = s.store.length + 1 := by rw [hs1]; simp
    have hidx : subSizeT s1.store.length 1 = s.store.length := by
      rw [subSizeT_one _ (by omega) (by omega), hlen]; rfl
    have hget : s1.store[s.store.length]? = some e := by rw [hs1]; simp
    refine ⟨e, d, hsteps, hname, hpath, hvar, ?_⟩
    simp only [getNumberOfClouds, getCloud, Shell.record, updateOnVisibility, hidx, hget]
    rw [hs1]
    simp

theorem loadSteps_silent (d : List Call) (h : ∀ c ∈ d, c.isLoadStep = true) :
    addCalls d = [] ∧ visualizeCalls d = [] ∧ getCalls d = [] := by
  refine ⟨?_, ?_, ?_⟩
  · simp only [addCalls, List.filterMap_eq_nil_iff]
    intro c hc
    have := h c hc
    cases c <;> simp_all [Call.isLoadStep]
  · simp only [visualizeCalls, List.filterMap_eq_nil_iff]
    intro c hc
    have := h c hc
    cases c <;> simp_all [Call.isLoadStep]
  · simp only [getCalls, List.filterMap_eq_nil_iff]
    intro c hc
    have := h c hc
    cases c <;> simp_all [Call.isLoadStep]

/-- C8. For a registry below the `size_t` range and a non-null path for which `addCloud`
succeeds, `loadCloudFromFile` ends without error, calls `addCloud` exactly once, with
the base name, the absolute file path and the state of "use adaptive clouds", appends
one entry made from these, calls `getCloud` once, at the index of that entry, and hands
exactly that entry to the renderer.  For a null path it returns the state it was given:
no registry call, no renderer call, no settings write. -/
theorem loadCloudFromFile_shows_new_entry (env : Env) (s : Shell) (p : String)
    (hsize : s.store.length < 2 ^ 64)
    (hok : (addCloud env s (env.baseName p) (env.absoluteFilePath p)
      s.actionUse_adaptive_clouds).2 = none) :
    (loadCloudFromFile env s (some p)).2 = none ∧
    addCalls (since s (loadCloudFromFile env s (some p)).1) =
      [(env.baseName p, env.absoluteFilePath p, s.actionUse_adaptive_clouds)] ∧
    (∃ e, (loadCloudFromFile env s (some p)).1.store = s.store ++ [e] ∧
      visualizeCalls (since s (loadCloudFromFile env s (some p)).1) = [e] ∧
      e.name = env.baseName p ∧ e.filepath = env.absoluteFilePath p ∧
      e.variant =
        (if s.actionUse_adaptive_clouds then Variant.Adaptive else Variant.Static)) ∧
    getCalls (since s (loadCloudFromFile env s (some p)).1) = [s.store.length] ∧
    (loadCloudFromFile env s (some p)).1.lastdir = some (env.absolutePath p) ∧
    loadCloudFromFile env s none = (s, none) := by
  obtain ⟨e, d, hsteps, hname, hpath, hvar, hrun⟩ := loadCloudFromFile_loaded env s p hsize hok
  obtain ⟨ha, hv, hg⟩ := loadSteps_silent d hsteps
  have hlog : (loadCloudFromFile env s (some p)).1.log =
      s.log ++ (Call.addCloud (env.baseName p) (env.absoluteFilePath p)
        s.actionUse_adaptive_clouds :: d ++
        [Call.getNumberOfClouds, Call.getCloud s.store.length, Call.visualize e,
          Call.rendererUpdate, Call.settingsSet "main/lastdir" (env.absolutePath p)]) := by
    have h1 := congrArg (fun r => r.1.log) hrun
    simpa using h1
  have hstore : (loadCloudFromFile env s (some p)).1.store = s.store ++ [e] :=
    congrArg (fun r => r.1.store) hrun
  have hdir : (loadCloudFromFile env s (some p)).1.lastdir = some (env.absolutePath p) :=
    congrArg (fun r => r.1.lastdir) hrun
  have herr : (loadCloudFromFile env s (some p)).2 = none :=
    congrArg (fun r => r.2) hrun
  rw [since_of_log hlog]
  refine ⟨herr, ?_, ⟨e, hstore, ?_, hname, hpath, hvar⟩, ?_, hdir, rfl⟩
  · simp only [addCalls] at ha ⊢
    simp [List.filterMap_append, ha]
  · simp only [visualizeCalls] at hv ⊢
    simp [List.filterMap_append, hv]
  · simp only [getCalls] at hg ⊢
    simp [List.filterMap_append, hg]

theorem loadCloudFromFile_shows_new_entry_witness :
    (loadCloudFromFile mouseEnv mouseShell (some "d.las")).2 = none ∧
    addCalls (since mouseShell (loadCloudFromFile mouseEnv mouseShell (some "d.las")).1) =
      [("d.las", "d.las", true)] ∧
    (∃ e, (loadCloudFromFile mouseEnv mouseShell (some "d.las")).1.store =
        mouseShell.store ++ [e] ∧
      visualizeCalls (since mouseShell
        (loadCloudFromFile mouseEnv mouseShell (some "d.las")).1) = [e] ∧
      e.name = "d.las" ∧ e.filepath = "d.las" ∧ e.variant = Variant.Adaptive) ∧
    getCalls (since mouseShell (loadCloudFromFile mouseEnv mouseShell (some "d.las")).1) =
      [3] ∧
    (loadCloudFromFile mouseEnv mouseShell (some "d.las")).1.lastdir = some "/data" ∧
    loadCloudFromFile mouseEnv mouseShell none = (mouseShell, none) :=
  loadCloudFromFile_shows_new_entry mouseEnv mouseShell "d.las" (by simp [mouseShell])
    (by decide)

/-- C10. In `on_actionCut_out_Subcloud_triggered` with a non-null path and a valid knife
polygon, whatever `UseCache` is: `filterVisibleCloudsTo` is called exactly once, with the
knife polygon and the chosen path, and writes the file; then the file is reloaded by
`loadCloudFromFile` on that path in a state whose `UseCache` is false, so `addCloud` is
followed by the format reader, no cache record is read or written, and the cache is
left as it was. -/
theorem cutOut_reloads_without_cache (env : Env) (s : Shell) (p : String)
    (h3 : 3 ≤ s.knifePolygon.length) (hs : env.isPolygonSimple s.knifePolygon = true) :
    filterCalls (since s (on_actionCut_out_Subcloud_triggered env s (some p)).1) =
      [(s.knifePolygon, p)] ∧
    (∃ rest, since s (on_actionCut_out_Subcloud_triggered env s (some p)).1 =
      Call.filterVisibleCloudsTo s.knifePolygon p ::
      Call.writeFile p (pointsInside env s.store s.knifePolygon) ::
      Call.addCloud (env.baseName p) (env.absoluteFilePath p) s.actionUse_adaptive_clouds ::
      Call.readFile (env.absoluteFilePath p) :: rest ∧ addCalls rest = []) ∧
    cacheCalls (since s (on_actionCut_out_Subcloud_triggered env s (some p)).1) = [] ∧
    (on_actionCut_out_Subcloud_triggered env s (some p)).1.cache = s.cache ∧
    ((on_actionCut_out_Subcloud_triggered env s (some p)).1.log,
      (on_actionCut_out_Subcloud_triggered env s (some p)).1.store,
      (on_actionCut_out_Subcloud_triggered env s (some p)).2) =
    ((loadCloudFromFile env
        { filterVisibleCloudsTo env s s.knifePolygon p with UseCache := false } (some p)).1.log,
      (loadCloudFromFile env
        { filterVisibleCloudsTo env s s.knifePolygon p with UseCache := false } (some p)).1.store,
      (loadCloudFromFile env
        { filterVisibleCloudsTo env s s.knifePolygon p with UseCache := false } (some p)).2) := by
  have hf := filterVisibleCloudsTo_valid env s p h3 hs
  have h : ¬ s.knifePolygon.length < 3 := by omega
  obtain ⟨rest, hlog, hcc, hfc, hac, hcache⟩ := loadCloudFromFile_uncached env
    { filterVisibleCloudsTo env s s.knifePolygon p with UseCache := false } p rfl
  have hrun : ((on_actionCut_out_Subcloud_triggered env s (some p)).1.log,
      (on_actionCut_out_Subcloud_triggered env s (some p)).1.store,
      (on_actionCut_out_Subcloud_triggered env s (some p)).1.cache,
      (on_actionCut_out_Subcloud_triggered env s (some p)).2) =
    ((loadCloudFromFile env
        { filterVisibleCloudsTo env s s.knifePolygon p with UseCache := false } (some p)).1.log,
      (loadCloudFromFile env
        { filterVisibleCloudsTo env s s.knifePolygon p with UseCache := false } (some p)).1.store,
      (loadCloudFromFile env
        { filterVisibleCloudsTo env s s.knifePolygon p with UseCache := false } (some p)).1.cache,
      (loadCloudFromFile env
        { filterVisibleCloudsTo env s s.knifePolygon p with UseCache := false } (some p)).2) := by
    simp only [on_actionCut_out_Subcloud_triggered, h, hs]
    simp only [decide_False, Bool.not_true, Bool.or_self, Bool.false_eq_true, ↓reduceIte]
    generalize loadCloudFromFile env
      { filterVisibleCloudsTo env s s.knifePolygon p with UseCache := false } (some p) = r
    obtain ⟨s2, _ | err⟩ := r <;> rfl
  simp only [Prod.mk.injEq] at hrun
  obtain ⟨hl, hst, hca, her⟩ := hrun
  have hlog2 : (on_actionCut_out_Subcloud_triggered env s (some p)).1.log = s.log ++
      (Call.filterVisibleCloudsTo s.knifePolygon p ::
      Call.writeFile p (pointsInside env s.store s.knifePolygon) ::
      Call.addCloud (env.baseName p) (env.absoluteFilePath p) s.actionUse_adaptive_clouds ::
      Call.readFile (env.absoluteFilePath p) :: rest) := by
    rw [hl, hlog, hf]
    simp
  rw [since_of_log hlog2]
  refine ⟨?_, ⟨rest, rfl, hac⟩, ?_, ?_, ?_⟩
  · simp only [filterCalls] at hfc ⊢
    simp [hfc]
  · simp only [cacheCalls] at hcc ⊢
    simp [hcc]
  · rw [hca, hcache, hf]
  · rw [hl, hst, her]

theorem cutOut_reloads_without_cache_witness :
    filterCalls (since mouseShell
      (on_actionCut_out_Subcloud_triggered mouseEnv mouseShell (some "cut.las")).1) =
      [(mouseShell.knifePolygon, "cut.las")] ∧
    cacheCalls (since mouseShell
      (on_actionCut_out_Subcloud_triggered mouseEnv mouseShell (some "cut.las")).1) = [] ∧
    (on_actionCut_out_Subcloud_triggered mouseEnv mouseShell (some "cut.las")).1.cache =
      mouseShell.cache :=
  have h := cutOut_reloads_without_cache mouseEnv mouseShell "cut.las" (by decide) rfl
  ⟨h.1, h.2.2.1, h.2.2.2.1⟩

theorem cutOut_filters_iff_valid_witness :
    on_actionCut_out_Subcloud_triggered mouseEnv twoVertexShell (some "cut.las") =
      (twoVertexShell, none) :=
  (cutOut_filters_iff_valid mouseEnv twoVertexShell (some "cut.las")).2 (by decide)

theorem onVisualizerMouse_locked_witness :
    lockedShell.actionLock_adaptive_view = true ∧
    onVisualizerMouse mouseEnv lockedShell 0 = (lockedShell, none) ∧
    recomputeCalls (since lockedShell (onVisualizerMouse mouseEnv lockedShell 0).1) = [] ∧
    (onVisualizerMouse mouseEnv lockedShell 0).1.store = lockedShell.store :=
  ⟨rfl, onVisualizerMouse_locked mouseEnv lockedShell 0 rfl⟩

/-- C6. The rows reported as `[1, 0]` on a registry of three entries: the first round
removes index 1, the second computes `0 - 1`, which `getCloud` receives as the `size_t`
value `2^64 - 1` while two entries are left, and fails with `IndexError`. -/
theorem close_unsorted_rows_out_of_range :
    (on_actionClose_Cloud_triggered mouseShell [1, 0]).2 =
      some (ShellError.IndexError 18446744073709551615) ∧
    getCalls (since mouseShell (on_actionClose_Cloud_triggered mouseShell [1, 0]).1) =
      [1, 18446744073709551615] ∧
    (on_actionClose_Cloud_triggered mouseShell [1, 0]).1.store =
      [adaptiveEntry "a", adaptiveEntry "c"] := by
  decide

/-- C9. A cut-out whose reload fails: `UseCache` and the checked state of "use cache"
are both true before; the reader cannot parse the exported file, `LoadError` leaves
`on_actionCut_out_Subcloud_triggered` before line 258, and `UseCache` stays false while
the action is still checked. -/
theorem cutOut_failed_reload_leaves_UseCache_off :
    emptyShell.UseCache = emptyShell.actionUse_cache ∧
    (on_actionCut_out_Subcloud_triggered mouseEnv emptyShell (some "bad.las")).2 =
      some (ShellError.LoadError "bad.las") ∧
    (on_actionCut_out_Subcloud_triggered mouseEnv emptyShell (some "bad.las")).1.UseCache =
      false ∧
    (on_actionCut_out_Subcloud_triggered mouseEnv emptyShell
      (some "bad.las")).1.actionUse_cache = true := by
  decide

/-! ## The cache flag -/

theorem sameFlags_refl (s : Shell) : SameFlags s s :=
  ⟨rfl, rfl⟩

theorem sameFlags_trans {s t u : Shell} (h1 : SameFlags s t) (h2 : SameFlags t u) :
    SameFlags s u :=
  ⟨h2.1.trans h1.1, h2.2.trans h1.2⟩

theorem loadCloudFromFile_flags (env : Env) (s : Shell) (filepath : Option String) :
    SameFlags s (loadCloudFromFile env s filepath).1 := by
  cases filepath with
  | none => exact sameFlags_refl s
  | some p =>
    obtain ⟨d, -, -, hcase⟩ := addCloud_spec env s (env.baseName p) (env.absoluteFilePath p)
      s.actionUse_adaptive_clouds
    simp only [loadCloudFromFile]
    generalize addCloud env s (env.baseName p) (env.absoluteFilePath p)
      s.actionUse_adaptive_clouds = r at hcase
    obtain ⟨s1, err⟩ := r
    rcases hcase with ⟨herr, hs1⟩ | ⟨herr, e, -, -, -, hs1⟩
    · simp only at herr hs1
      subst herr
      simp only []
      rw [hs1]
      exact ⟨rfl, rfl⟩
    · simp only at herr hs1
      subst herr
      simp only [getNumberOfClouds, getCloud, Shell.record, updateOnVisibility]
      cases s1.store[subSizeT s1.store.length 1]? with
      | none => simp only []; rw [hs1]; exact ⟨rfl, rfl⟩
      | some cloud => simp only []; rw [hs1]; exact ⟨rfl, rfl⟩

theorem closeLoop_flags (rows : List Int) :
    ∀ (s : Shell) (deleted : Int), SameFlags s (closeLoop s deleted rows).1 := by
  induction rows with
  | nil => intro s deleted; exact sameFlags_refl s
  | cons row rest ih =>
    intro s deleted
    cases h : s.store[toSizeT (row - deleted)]? with
    | none =>
      rw [closeLoop_cons_none s deleted row rest h]
      exact ⟨rfl, rfl⟩
    | some e =>
      rw [closeLoop_cons_some s deleted row rest e h]
      exact sameFlags_trans ⟨rfl, rfl⟩ (ih _ _)

theorem changeSelectedCloudsPointSize_flags (diff : Int) (rows : List Int) :
    ∀ s : Shell, SameFlags s (changeSelectedCloudsPointSize s diff rows).1 := by
  induction rows with
  | nil => intro s; exact sameFlags_refl s
  | cons row rest ih =>
    intro s
    rw [changeSelectedCloudsPointSize]
    simp only [getCloud]
    cases s.store[toSizeT row]? with
    | none => exact ⟨rfl, rfl⟩
    | some cloud => exact sameFlags_trans ⟨rfl, rfl⟩ (ih _)

theorem onVisualizerMouse_flags (env : Env) (s : Shell) (event : Nat) :
    SameFlags s (onVisualizerMouse env s event).1 := by
  cases hl : s.actionLock_adaptive_view with
  | true =>
    have h : onVisualizerMouse env s event = (s, none) := by simp [onVisualizerMouse, hl]
    rw [h]; exact sameFlags_refl s
  | false =>
    obtain ⟨d, hd, -⟩ := mouseLoop_spec env s.store s 0 (by simp)
    have h : onVisualizerMouse env s event = mouseLoop env s 0 := by
      simp [onVisualizerMouse, hl]
    rw [h, hd]
    exact ⟨rfl, rfl⟩

theorem cloudModelChanged_flags (env : Env) (s : Shell) (row : Int) (column : Nat) :
    SameFlags s (cloudModelChanged env s row column).1 := by
  simp only [cloudModelChanged, getCloud]
  cases s.store[toSizeT row]? with
  | none => exact ⟨rfl, rfl⟩
  | some cloud =>
    by_cases hc : column = env.COLUMN_VISIBILITY
    · simp only [hc, ↓reduceIte]; exact ⟨rfl, rfl⟩
    · simp only [hc, ↓reduceIte]; exact ⟨rfl, rfl⟩

/-- A cut-out that ends without error leaves both flags as they were. -/
theorem cutOut_flags (env : Env) (s : Shell) (dialog : Option String)
    (hok : (on_actionCut_out_Subcloud_triggered env s dialog).2 = none) :
    SameFlags s (on_actionCut_out_Subcloud_triggered env s dialog).1 := by
  by_cases hv : dialog ≠ none ∧ 3 ≤ s.knifePolygon.length ∧
      env.isPolygonSimple s.knifePolygon = true
  · obtain ⟨hd, h3, hs⟩ := hv
    obtain ⟨p, rfl⟩ := Option.ne_none_iff_exists'.1 hd
    have hf := filterVisibleCloudsTo_valid env s p h3 hs
    have h : ¬ s.knifePolygon.length < 3 := by omega
    have hfl := loadCloudFromFile_flags env
      { filterVisibleCloudsTo env s s.knifePolygon p with UseCache := false } (some p)
    simp only [on_actionCut_out_Subcloud_triggered, h, hs] at hok ⊢
    simp only [decide_False, Bool.not_true, Bool.or_self, Bool.false_eq_true,
      ↓reduceIte] at hok ⊢
    generalize loadCloudFromFile env
      { filterVisibleCloudsTo env s s.knifePolygon p with UseCache := false } (some p) = r
      at hok hfl
    obtain ⟨s2, _ | err⟩ := r
    · refine ⟨?_, ?_⟩
      · simp only []; rw [hf]
      · simp only []; rw [hfl.2, hf]
    · simp at hok
  · rw [cutOut_invalid env s dialog hv]
    exact sameFlags_refl s

/-- After the constructor `UseCache` is the checked state of "use cache". -/
theorem constructor_flag_in_sync (env : Env) (s : Shell) :
    FlagInSync (SmogMainWindow env s) := by
  cases htmp : env.tmpDirExists <;> simp [FlagInSync, SmogMainWindow, Shell.record, htmp]

/-- Every action that is not a cut-out, however it ends, and every cut-out that ends
without error, keeps `UseCache` equal to the checked state of "use cache". -/
theorem step_flag_in_sync (env : Env) (s : Shell) (a : Action) (hinv : FlagInSync s)
    (hok : (step env s a).2 = none ∨ ∀ dialog, a ≠ Action.cutOutSubcloud dialog) :
    FlagInSync (step env s a).1 := by
  have key : ∀ t : Shell, SameFlags s t → FlagInSync t := by
    intro t ht
    unfold FlagInSync at hinv ⊢
    rw [ht.1, ht.2, hinv]
  cases a with
  | loadCloud dialog => exact key _ (loadCloudFromFile_flags env s dialog)
  | closeCloud rows => exact key _ (closeLoop_flags rows s 0)
  | cutOutSubcloud dialog =>
    rcases hok with h | h
    · exact key _ (cutOut_flags env s dialog h)
    · exact absurd rfl (h dialog)
  | useCache => simp [FlagInSync, step, on_actionUse_cache_triggered]
  | lockAdaptiveView => exact key _ ⟨rfl, rfl⟩
  | useAdaptiveClouds => exact key _ ⟨rfl, rfl⟩
  | increasePointSize rows => exact key _ (changeSelectedCloudsPointSize_flags 1 rows s)
  | decreasePointSize rows => exact key _ (changeSelectedCloudsPointSize_flags (-1) rows s)
  | backgroundColor picked =>
    cases picked with
    | none => exact key _ (sameFlags_refl s)
    | some c => exact key _ ⟨rfl, rfl⟩
  | mouse event => exact key _ (onVisualizerMouse_flags env s event)
  | keyboard event => exact key _ (sameFlags_refl s)
  | modelChanged row column => exact key _ (cloudModelChanged_flags env s row column)
  | drawKnife polygon => exact key _ ⟨rfl, rfl⟩
  | moveCamera pose => exact key _ ⟨rfl, rfl⟩

/-- A load on a registry below the `size_t` range never fails with `IndexError`: the
index `getNumberOfClouds() - 1` is only computed after `addCloud` appended an entry. -/
theorem loadCloudFromFile_index_in_range (env : Env) (s : Shell) (filepath : Option String)
    (hsize : s.store.length < 2 ^ 64) (index : Nat) :
    (loadCloudFromFile env s filepath).2 ≠ some (ShellError.IndexError index) := by
  cases filepath with
  | none => simp [loadCloudFromFile]
  | some p =>
    cases hok : (addCloud env s (env.baseName p) (env.absoluteFilePath p)
        s.actionUse_adaptive_clouds).2 with
    | none =>
      obtain ⟨e, d, -, -, -, -, hrun⟩ := loadCloudFromFile_loaded env s p hsize hok
      have herr : (loadCloudFromFile env s (some p)).2 = none := congrArg (fun r => r.2) hrun
      rw [herr]
      exact fun h => Option.noConfusion h
    | some err =>
      obtain ⟨d, -, -, hcase⟩ := addCloud_spec env s (env.baseName p)
        (env.absoluteFilePath p) s.actionUse_adaptive_clouds
      simp only [loadCloudFromFile]
      generalize addCloud env s (env.baseName p) (env.absoluteFilePath p)
        s.actionUse_adaptive_clouds = r at hcase hok
      obtain ⟨s1, err1⟩ := r
      rcases hcase with ⟨herr, -⟩ | ⟨herr, -⟩
      · simp only at herr
        subst herr
        simp
      · simp only at herr hok
        rw [herr] at hok
        exact Option.noConfusion hok

end Smog
